/-
Verification of `monaco.py`: a rejection-sampling point generator constrained
to a polygon boundary, fixed-point coordinate formatting for a routing API,
and an HTTP request wrapper.

Modelling conventions:
* Coordinates are rationals (`ℚ`); Python floats are modelled exactly.
* The shapely geometry object held by the sampler is abstracted as a
  `Boundary`: its bounding box (`boundary.bounds`) and the two predicates
  `contains` / `touches` that the code calls (shapely is an external library;
  for concrete instances we implement the predicates for an axis-aligned
  rectangle polygon, where `contains` is interior-only and `touches` is
  boundary membership, matching shapely's semantics).
* `random.uniform(a, b)` is modelled as `a + (b - a) * u` where `u` is drawn
  from an abstract stream `rng : Nat → ℚ × ℚ` of unit draws, indexed by the
  attempt counter.  A fixed seed corresponds to a fixed stream.
* Python's `round(x, 6)` is modelled as rounding `x * 10^6` to the nearest
  integer (ties follow `round`'s half-up convention; the exact binary-float
  tie behaviour of Python is immaterial to the claims below).
-/
import Mathlib

namespace Monaco

/-- Abstraction of the shapely polygon object used by `generate_malta_points`:
its bounding box `(minx, miny, maxx, maxy)` and the Boolean tests
`contains` / `touches` (each taking longitude then latitude, as the code
builds `Point(longitude, latitude)`). -/
structure Boundary where
  minx : ℚ
  miny : ℚ
  maxx : ℚ
  maxy : ℚ
  contains : ℚ → ℚ → Bool
  touches : ℚ → ℚ → Bool

/-- Python `round(q, 6)`: round to the nearest multiple of `10⁻⁶`. -/
def round6 (q : ℚ) : ℚ := (round (q * 1000000) : ℚ) / 1000000

/-- `random.uniform(a, b)` given the unit draw `u`. -/
def uniform (a b u : ℚ) : ℚ := a + (b - a) * u

/-- The mutable state of the sampling loop: the accumulated `points` list
(pairs `(latitude, longitude)`) and the `attempts` counter. -/
structure GenState where
  points : List (ℚ × ℚ)
  attempts : Nat
  deriving DecidableEq

/-- One iteration body of the `while` loop in `generate_malta_points`:
draw a point in the bounding box, test `contains ... or touches ...` on the
raw point, and on success append the point rounded to 6 decimals; the
attempt counter increments regardless. -/
def genStep (b : Boundary) (rng : Nat → ℚ × ℚ) (s : GenState) : GenState :=
  let longitude := uniform b.minx b.maxx (rng s.attempts).1
  let latitude := uniform b.miny b.maxy (rng s.attempts).2
  if b.contains longitude latitude || b.touches longitude latitude then
    { points := s.points ++ [(round6 latitude, round6 longitude)],
      attempts := s.attempts + 1 }
  else
    { points := s.points, attempts := s.attempts + 1 }

/-- The `while len(points) < num_points and attempts < max_attempts` loop.
`fuel` is the remaining attempt budget `max_attempts - attempts`, so
`attempts < max_attempts` is exactly `fuel > 0`. -/
def genLoop (b : Boundary) (rng : Nat → ℚ × ℚ) (num_points : Nat)
    (s : GenState) : Nat → GenState
  | 0 => s
  | Nat.succ fuel =>
      if s.points.length < num_points then
        genLoop b rng num_points (genStep b rng s) fuel
      else s

/-- `generate_malta_points`, returning the full final loop state
(`max_attempts = num_points * 20`, starting from empty `points` and
`attempts = 0`). -/
def generate_malta_points_full (b : Boundary) (rng : Nat → ℚ × ℚ)
    (num_points : Nat) : GenState :=
  genLoop b rng num_points { points := [], attempts := 0 } (num_points * 20)

/-- The value returned by `generate_malta_points`. -/
def generate_malta_points (b : Boundary) (rng : Nat → ℚ × ℚ)
    (num_points : Nat) : List (ℚ × ℚ) :=
  (generate_malta_points_full b rng num_points).points

/-- `true` exactly when the post-loop `if len(points) < num_points:` guard
fires and the shortfall warning is printed. -/
def shortfall_warning (b : Boundary) (rng : Nat → ℚ × ℚ)
    (num_points : Nat) : Bool :=
  decide ((generate_malta_points_full b rng num_points).points.length
    < num_points)

/-- The boundary object for an axis-aligned rectangle polygon with corners
`(x0, y0)` and `(x1, y1)`: shapely's `contains` holds on the open interior,
`touches` on the boundary of the rectangle. -/
def rectBoundary (x0 y0 x1 y1 : ℚ) : Boundary where
  minx := x0
  miny := y0
  maxx := x1
  maxy := y1
  contains := fun lon lat =>
    decide (x0 < lon) && decide (lon < x1) &&
    decide (y0 < lat) && decide (lat < y1)
  touches := fun lon lat =>
    ((decide (lon = x0) || decide (lon = x1)) &&
      decide (y0 ≤ lat) && decide (lat ≤ y1)) ||
    ((decide (lat = y0) || decide (lat = y1)) &&
      decide (x0 ≤ lon) && decide (lon ≤ x1))

/- ### Step lemmas -/

theorem genStep_attempts (b : Boundary) (rng : Nat → ℚ × ℚ) (s : GenState) :
    (genStep b rng s).attempts = s.attempts + 1 := by
  unfold genStep
  dsimp only
  split <;> rfl

theorem genStep_length (b : Boundary) (rng : Nat → ℚ × ℚ) (s : GenState) :
    (genStep b rng s).points.length = s.points.length ∨
    (genStep b rng s).points.length = s.points.length + 1 := by
  unfold genStep
  dsimp only
  split
  · right; simp
  · left; rfl

theorem genStep_mem (b : Boundary) (rng : Nat → ℚ × ℚ) (s : GenState)
    (p : ℚ × ℚ) (hp : p ∈ (genStep b rng s).points) :
    p ∈ s.points ∨ ∃ lon lat,
      (b.contains lon lat || b.touches lon lat) = true ∧
      p = (round6 lat, round6 lon) := by
  unfold genStep at hp
  dsimp only at hp
  split at hp
  case isTrue hc =>
    simp only [List.mem_append, List.mem_singleton] at hp
    rcases hp with hold | hnew
    · exact Or.inl hold
    · exact Or.inr ⟨_, _, hc, hnew⟩
  case isFalse =>
    exact Or.inl hp

theorem genStep_reject (b : Boundary) (rng : Nat → ℚ × ℚ) (s : GenState)
    (hb : ∀ lon lat, b.contains lon lat = false ∧ b.touches lon lat = false) :
    (genStep b rng s).points = s.points := by
  unfold genStep
  dsimp only
  split
  case isTrue hc =>
    rcases hb (uniform b.minx b.maxx (rng s.attempts).1)
      (uniform b.miny b.maxy (rng s.attempts).2) with ⟨h1, h2⟩
    rw [h1, h2] at hc
    simp at hc
  case isFalse =>
    rfl

/- ### Loop invariants -/

theorem genLoop_attempts_le (b : Boundary) (rng : Nat → ℚ × ℚ) (n : Nat) :
    ∀ (fuel : Nat) (s : GenState),
      (genLoop b rng n s fuel).attempts ≤ s.attempts + fuel := by
  intro fuel
  induction fuel with
  | zero => intro s; simp [genLoop]
  | succ f ih =>
      intro s
      simp only [genLoop]
      by_cases h : s.points.length < n
      · simp only [h, if_true]
        refine le_trans (ih _) ?_
        rw [genStep_attempts]
        omega
      · simp only [h, if_false]; omega

theorem genLoop_shortfall_exhausts (b : Boundary) (rng : Nat → ℚ × ℚ)
    (n : Nat) : ∀ (fuel : Nat) (s : GenState),
      (genLoop b rng n s fuel).points.length < n →
      (genLoop b rng n s fuel).attempts = s.attempts + fuel := by
  intro fuel
  induction fuel with
  | zero => intro s _; simp [genLoop]
  | succ f ih =>
      intro s hlt
      simp only [genLoop] at hlt ⊢
      by_cases h : s.points.length < n
      · simp only [h, if_true] at hlt ⊢
        rw [ih (genStep b rng s) hlt, genStep_attempts]
        omega
      · simp only [h, if_false] at hlt

theorem genLoop_length_or (b : Boundary) (rng : Nat → ℚ × ℚ) (n : Nat) :
    ∀ (fuel : Nat) (s : GenState),
      s.points.length ≤ n →
      (genLoop b rng n s fuel).points.length = n ∨
      (genLoop b rng n s fuel).attempts = s.attempts + fuel := by
  intro fuel
  induction fuel with
  | zero =>
      intro s _; simp [genLoop]
  | succ f ih =>
      intro s hle
      simp only [genLoop]
      by_cases h : s.points.length < n
      · simp only [h, if_true]
        have hstep : (genStep b rng s).points.length ≤ n := by
          rcases genStep_length b rng s with h1 | h1 <;> omega
        rcases ih (genStep b rng s) hstep with h1 | h1
        · exact Or.inl h1
        · right
          rw [h1, genStep_attempts]
          omega
      · simp only [h, if_false]
        left
        omega

theorem genLoop_mem (b : Boundary) (rng : Nat → ℚ × ℚ) (n : Nat) :
    ∀ (fuel : Nat) (s : GenState) (p : ℚ × ℚ),
      p ∈ (genLoop b rng n s fuel).points →
      p ∈ s.points ∨ ∃ lon lat,
        (b.contains lon lat || b.touches lon lat) = true ∧
        p = (round6 lat, round6 lon) := by
  intro fuel
  induction fuel with
  | zero => intro s p hp; exact Or.inl hp
  | succ f ih =>
      intro s p hp
      simp only [genLoop] at hp
      by_cases h : s.points.length < n
      · simp only [h, if_true] at hp
        rcases ih (genStep b rng s) p hp with hmem | hnew
        · exact genStep_mem b rng s p hmem
        · exact Or.inr hnew
      · simp only [h, if_false] at hp
        exact Or.inl hp

theorem genLoop_reject_all (b : Boundary) (rng : Nat → ℚ × ℚ) (n : Nat)
    (hb : ∀ lon lat, b.contains lon lat = false ∧ b.touches lon lat = false) :
    ∀ (fuel : Nat) (s : GenState),
      (genLoop b rng n s fuel).points = s.points := by
  intro fuel
  induction fuel with
  | zero => intro s; simp [genLoop]
  | succ f ih =>
      intro s
      simp only [genLoop]
      by_cases h : s.points.length < n
      · simp only [h, if_true]
        rw [ih, genStep_reject b rng s hb]
      · simp [h]

/-- A polygon so thin that every interior point rounds outside of it:
the axis-aligned square `[3·10⁻⁷, 5·10⁻⁷] × [3·10⁻⁷, 5·10⁻⁷]`. -/
def sliverBoundary : Boundary :=
  rectBoundary (3 / 10000000) (3 / 10000000) (5 / 10000000) (5 / 10000000)

/-- The unit square `[0, 1] × [0, 1]` (the scenario polygon of the spec). -/
def unitSquareBoundary : Boundary := rectBoundary 0 0 1 1

/-- A degenerate zero-area polygon on which no sampled point is ever
accepted: empty interior and (for this model) no boundary contact. -/
def degenerateBoundary : Boundary where
  minx := 0
  miny := 0
  maxx := 0
  maxy := 0
  contains := fun _ _ => false
  touches := fun _ _ => false

/-- The constant random stream drawing `(1/2, 1/2)` at every attempt. -/
def halfRng : Nat → ℚ × ℚ := fun _ => (1 / 2, 1 / 2)

theorem genLoop_rng_congr (b : Boundary) (rng₁ rng₂ : Nat → ℚ × ℚ) (n : Nat)
    (hr : ∀ i, rng₁ i = rng₂ i) :
    ∀ (fuel : Nat) (s : GenState),
      genLoop b rng₁ n s fuel = genLoop b rng₂ n s fuel := by
  intro fuel
  induction fuel with
  | zero => intro s; rfl
  | succ f ih =>
      intro s
      simp only [genLoop]
      by_cases h : s.points.length < n
      · simp only [h, if_true]
        rw [show genStep b rng₁ s = genStep b rng₂ s by
          unfold genStep; rw [hr s.attempts]]
        exact ih _
      · simp [h]

/- ### Claim theorems for the point sampler -/

/-- C1, counterexample: on the sliver polygon
`[3·10⁻⁷, 5·10⁻⁷]²` the sampled point `(4·10⁻⁷, 4·10⁻⁷)` lies in the
interior and is accepted, but the returned pair — the point rounded to 6
decimals — is `(0, 0)`, which lies neither within nor on the boundary of the
polygon.  So not every returned pair lies within or on the boundary. -/
theorem returned_point_may_leave_boundary :
    (0, 0) ∈ generate_malta_points sliverBoundary halfRng 1 ∧
    (sliverBoundary.contains 0 0 || sliverBoundary.touches 0 0) = false := by
  with_unfolding_all decide

/-- C1, amended: every `(latitude, longitude)` pair in the sequence returned
by `generate_malta_points` is the 6-decimal rounding of a raw sampled point
that lies within or on the boundary of the polygon (the containment test is
performed on the raw sample; the appended rounded point may itself fall
outside). -/
theorem returned_points_round_contained_samples (b : Boundary)
    (rng : Nat → ℚ × ℚ) (n : Nat) (p : ℚ × ℚ)
    (hp : p ∈ generate_malta_points b rng n) :
    ∃ lon lat, (b.contains lon lat || b.touches lon lat) = true ∧
      p = (round6 lat, round6 lon) := by
  rcases genLoop_mem b rng n (n * 20) { points := [], attempts := 0 } p hp
    with h | h
  · simp at h
  · exact h

/-- C1, witness: on the unit square with the constant `(1/2, 1/2)` stream the
returned point `(1/2, 1/2)` is the rounding of an accepted raw sample. -/
theorem returned_points_round_contained_samples_witness :
    ∃ lon lat,
      (unitSquareBoundary.contains lon lat ||
        unitSquareBoundary.touches lon lat) = true ∧
      ((1 / 2 : ℚ), (1 / 2 : ℚ)) = (round6 lat, round6 lon) :=
  returned_points_round_contained_samples unitSquareBoundary halfRng 1
    (1 / 2, 1 / 2) (by with_unfolding_all decide)

/-- C3: the sampling loop performs at most `count * 20` attempts; it ends
either with `count` points collected or with the attempt budget exhausted;
and on a degenerate polygon where no sampled point is ever accepted it
terminates with the empty list. -/
theorem sampling_attempts_bounded (b : Boundary) (rng : Nat → ℚ × ℚ)
    (n : Nat) :
    (generate_malta_points_full b rng n).attempts ≤ n * 20 ∧
    ((generate_malta_points_full b rng n).points.length = n ∨
      (generate_malta_points_full b rng n).attempts = n * 20) ∧
    ((∀ lon lat, b.contains lon lat = false ∧ b.touches lon lat = false) →
      generate_malta_points b rng n = []) := by
  refine ⟨?_, ?_, ?_⟩
  · have h := genLoop_attempts_le b rng n (n * 20)
      { points := [], attempts := 0 }
    simpa [generate_malta_points_full] using h
  · have h := genLoop_length_or b rng n (n * 20)
      { points := [], attempts := 0 } (by simp)
    simpa [generate_malta_points_full] using h
  · intro hb
    have h := genLoop_reject_all b rng n hb (n * 20)
      { points := [], attempts := 0 }
    simpa [generate_malta_points, generate_malta_points_full] using h

/-- C3, witness: on a degenerate zero-area polygon requesting one point, the
loop stops within the budget of 20 attempts and returns the empty list. -/
theorem sampling_attempts_bounded_witness :
    (generate_malta_points_full degenerateBoundary halfRng 1).attempts
      ≤ 1 * 20 ∧
    generate_malta_points degenerateBoundary halfRng 1 = [] :=
  ⟨(sampling_attempts_bounded degenerateBoundary halfRng 1).1,
   (sampling_attempts_bounded degenerateBoundary halfRng 1).2.2
     (fun _ _ => ⟨rfl, rfl⟩)⟩

/-- C6: requesting zero points returns the empty sequence immediately, with
zero sampling attempts performed. -/
theorem count_zero_returns_empty (b : Boundary) (rng : Nat → ℚ × ℚ) :
    generate_malta_points b rng 0 = [] ∧
    (generate_malta_points_full b rng 0).attempts = 0 :=
  ⟨rfl, rfl⟩

/-- C7: the shortfall warning is emitted if and only if the loop ends with
fewer points than requested, and that happens exactly when the full attempt
budget `count * 20` has been spent; the partial list is still the returned
value. -/
theorem shortfall_warning_iff_budget_exhausted (b : Boundary)
    (rng : Nat → ℚ × ℚ) (n : Nat) :
    shortfall_warning b rng n = true ↔
      ((generate_malta_points b rng n).length < n ∧
        (generate_malta_points_full b rng n).attempts = n * 20) := by
  unfold shortfall_warning generate_malta_points
  constructor
  · intro h
    have hlt := of_decide_eq_true h
    refine ⟨hlt, ?_⟩
    have h2 := genLoop_shortfall_exhausts b rng n (n * 20)
      { points := [], attempts := 0 }
      (by simpa [generate_malta_points_full] using hlt)
    simpa [generate_malta_points_full] using h2
  · intro h
    exact decide_eq_true h.1

/-- C7, witness: on the degenerate polygon requesting one point the warning
fires, one point short, after all 20 attempts. -/
theorem shortfall_warning_iff_budget_exhausted_witness :
    shortfall_warning degenerateBoundary halfRng 1 = true ↔
      ((generate_malta_points degenerateBoundary halfRng 1).length < 1 ∧
        (generate_malta_points_full degenerateBoundary halfRng 1).attempts
          = 1 * 20) :=
  shortfall_warning_iff_budget_exhausted degenerateBoundary halfRng 1

/-- C8: point generation is a pure function of the polygon and the random
stream: two runs over pointwise-equal random streams (a fixed seed) with the
same polygon and requested count produce identical output sequences. -/
theorem generation_deterministic_in_rng (b : Boundary)
    (rng₁ rng₂ : Nat → ℚ × ℚ) (n : Nat) (hr : ∀ i, rng₁ i = rng₂ i) :
    generate_malta_points b rng₁ n = generate_malta_points b rng₂ n := by
  unfold generate_malta_points generate_malta_points_full
  rw [genLoop_rng_congr b rng₁ rng₂ n hr]

/-- C8, witness: two syntactically different but pointwise-equal random
streams generate the same list on the unit square. -/
theorem generation_deterministic_in_rng_witness :
    generate_malta_points unitSquareBoundary halfRng 1 =
      generate_malta_points unitSquareBoundary
        (fun _ => (2 / 4, 3 / 6)) 1 :=
  generation_deterministic_in_rng unitSquareBoundary halfRng
    (fun _ => (2 / 4, 3 / 6)) 1
    (fun _ => by
      show ((1 / 2 : ℚ), (1 / 2 : ℚ)) = ((2 / 4 : ℚ), (3 / 6 : ℚ))
      with_unfolding_all decide)

/- ### Fixed-point decimal strings (`format_points_for_api`)

Python's `f"{x:.6f}"` rendering is modelled at the character level: the value
is rounded to 6 decimals and printed with a sign, an integer part with no
leading zeros (a single `0` when the integer part vanishes) and exactly six
fractional digits. -/

/-- The decimal digit characters of `n`, most significant first
(a single `"0"` for `n = 0`). -/
def natToChars (n : Nat) : List Char :=
  if n = 0 then ['0']
  else ((Nat.digits 10 n).reverse).map (fun d => Char.ofNat (48 + d))

/-- Parse decimal digit characters, most significant first, to a `Nat`. -/
def charsToNat (l : List Char) : Nat :=
  Nat.ofDigits 10 ((l.map (fun c => c.toNat - 48)).reverse)

/-- Left-pad a digit string with zeros to width 6 (the `%.6f` fraction). -/
def pad6 (l : List Char) : List Char := List.replicate (6 - l.length) '0' ++ l

/-- The digits of the unsigned fixed-point numeral `m · 10⁻⁶`:
integer part, a dot and exactly six fractional digits. -/
def unsignedChars (m : Nat) : List Char :=
  natToChars (m / 1000000) ++ '.' :: pad6 (natToChars (m % 1000000))

/-- Python `f"{q:.6f}"`: round to 6 decimals, render sign then the unsigned
fixed-point numeral. -/
def fixed6Chars (q : ℚ) : List Char :=
  (if round (q * 1000000) < 0 then ['-'] else []) ++
    unsignedChars (round (q * 1000000)).natAbs

/-- `f"{lon:.6f},{lat:.6f}"` for one `(latitude, longitude)` pair. -/
def pointChars (p : ℚ × ℚ) : List Char :=
  fixed6Chars p.2 ++ ',' :: fixed6Chars p.1

/-- Python `sep.join(strings)` at the character level. -/
def joinSep (c : Char) : List (List Char) → List Char
  | [] => []
  | [l] => l
  | l :: l2 :: ls => l ++ c :: joinSep c (l2 :: ls)

/-- `format_points_for_api`: render each `(lat, lon)` pair as
`f"{lon:.6f},{lat:.6f}"` and join the renderings with `";"`. -/
def format_points_for_api (points : List (ℚ × ℚ)) : String :=
  String.mk (joinSep ';' (points.map pointChars))

/-- Split a character list at every occurrence of `c`. -/
def splitOnChar (c : Char) : List Char → List (List Char)
  | [] => [[]]
  | x :: xs =>
    match splitOnChar c xs with
    | [] => [[x]]
    | h :: t => if x = c then [] :: h :: t else (x :: h) :: t

/-- Modelled from the spec: the repository has no parser for the API string,
but the spec's round-trip property speaks of "parsing it back"; this parses
one unsigned fixed-point numeral `intpart.fracpart` of decimal digits. -/
def parseDecimal (l : List Char) : Option ℚ :=
  match splitOnChar '.' l with
  | [a, b] =>
      if a.all Char.isDigit && b.all Char.isDigit &&
          !a.isEmpty && !b.isEmpty then
        some ((charsToNat a : ℚ) + (charsToNat b : ℚ) / 10 ^ b.length)
      else none
  | _ => none

/-- Modelled from the spec: parse an optionally `-`-signed numeral. -/
def parseSigned (l : List Char) : Option ℚ :=
  match l with
  | x :: rest =>
      if x = '-' then (parseDecimal rest).map (fun q => -q)
      else parseDecimal (x :: rest)
  | [] => none

/-- Modelled from the spec: parse one `lon,lat` fragment back into a
`(latitude, longitude)` pair. -/
def parsePoint (l : List Char) : Option (ℚ × ℚ) :=
  match splitOnChar ',' l with
  | [lonChars, latChars] =>
      match parseSigned lonChars, parseSigned latChars with
      | some lon, some lat => some (lat, lon)
      | _, _ => none
  | _ => none

/-- Modelled from the spec: parse the `;`-delimited API string back into
`(latitude, longitude)` pairs; the empty string denotes the empty list. -/
def parse_api_string (s : String) : Option (List (ℚ × ℚ)) :=
  if s.data = [] then some []
  else (splitOnChar ';' s.data).mapM parsePoint

/-- The shape of a `%.6f` numeral: a unique dot followed by exactly six
decimal digits. -/
def sixFracDigits (l : List Char) : Prop :=
  ∃ u v, l = u ++ '.' :: v ∧ v.length = 6 ∧ (∀ c ∈ v, c.isDigit = true) ∧
    '.' ∉ u ∧ '.' ∉ v

/- ### Digit-string lemmas -/

theorem digitChar_isDigit {d : Nat} (hd : d < 10) :
    (Char.ofNat (48 + d)).isDigit = true := by
  interval_cases d <;> decide

theorem digitChar_toNat {d : Nat} (hd : d < 10) :
    (Char.ofNat (48 + d)).toNat - 48 = d := by
  interval_cases d <;> decide

theorem isDigit_ne {c : Char} (h : c.isDigit = true) :
    c ≠ '.' ∧ c ≠ ',' ∧ c ≠ ';' ∧ c ≠ '-' := by
  refine ⟨?_, ?_, ?_, ?_⟩ <;>
    { intro hc; rw [hc] at h; exact absurd h (by decide) }

theorem natToChars_isDigit (n : Nat) :
    ∀ c ∈ natToChars n, c.isDigit = true := by
  intro c hc
  unfold natToChars at hc
  by_cases hn : n = 0
  · simp only [hn, if_true] at hc
    simp only [List.mem_singleton] at hc
    rw [hc]
    decide
  · simp only [hn, if_false, List.mem_map, List.mem_reverse] at hc
    rcases hc with ⟨d, hd, rfl⟩
    exact digitChar_isDigit (Nat.digits_lt_base (by norm_num) hd)

theorem natToChars_ne_nil (n : Nat) : natToChars n ≠ [] := by
  unfold natToChars
  by_cases hn : n = 0
  · simp [hn]
  · simp only [hn, if_false, ne_eq, List.map_eq_nil_iff, List.reverse_eq_nil_iff]
    exact Nat.digits_ne_nil_iff_ne_zero.mpr hn

theorem charsToNat_natToChars (n : Nat) : charsToNat (natToChars n) = n := by
  unfold charsToNat natToChars
  by_cases hn : n = 0
  · simp [hn, Nat.ofDigits]
  · simp only [hn, if_false, List.map_map, List.reverse_reverse]
    have hmap : (Nat.digits 10 n).reverse.map
        ((fun c => c.toNat - 48) ∘ fun d => Char.ofNat (48 + d)) =
        (Nat.digits 10 n).reverse.map id := by
      apply List.map_congr_left
      intro d hd
      rw [List.mem_reverse] at hd
      exact digitChar_toNat (Nat.digits_lt_base (by norm_num) hd)
    rw [hmap, List.map_id, List.reverse_reverse, Nat.ofDigits_digits]

theorem natToChars_length_le (m : Nat) (hm : m < 1000000) :
    (natToChars m).length ≤ 6 := by
  unfold natToChars
  by_cases h : m = 0
  · simp [h]
  · simp only [h, if_false, List.length_map, List.length_reverse]
    rw [Nat.digits_len 10 m (by norm_num) h]
    have : Nat.log 10 m < 6 :=
      Nat.log_lt_of_lt_pow h (by norm_num [hm])
    omega

theorem pad6_length (l : List Char) (hl : l.length ≤ 6) :
    (pad6 l).length = 6 := by
  unfold pad6
  simp only [List.length_append, List.length_replicate]
  omega

theorem pad6_isDigit (l : List Char) (hl : ∀ c ∈ l, c.isDigit = true) :
    ∀ c ∈ pad6 l, c.isDigit = true := by
  intro c hc
  unfold pad6 at hc
  rw [List.mem_append] at hc
  rcases hc with hc | hc
  · rw [List.eq_of_mem_replicate hc]
    decide
  · exact hl c hc

theorem ofDigits_append_zeros (k : Nat) (ds : List Nat) :
    Nat.ofDigits 10 (ds ++ List.replicate k 0) = Nat.ofDigits 10 ds := by
  rw [Nat.ofDigits_append]
  have hz : Nat.ofDigits 10 (List.replicate k 0) = 0 := by
    induction k with
    | zero => rfl
    | succ j ih =>
        rw [List.replicate_succ, Nat.ofDigits_cons, ih]

  rw [hz]
  ring

theorem charsToNat_pad6 (l : List Char) : charsToNat (pad6 l) = charsToNat l := by
  unfold charsToNat pad6
  rw [List.map_append, List.reverse_append]
  have hrep : (List.replicate (6 - l.length) '0').map
      (fun c => c.toNat - 48) = List.replicate (6 - l.length) 0 := by
    rw [List.map_replicate]
    congr 1
  rw [hrep, List.reverse_replicate]
  exact ofDigits_append_zeros _ _

/- ### Splitting lemmas -/

theorem splitOnChar_ne_nil (c : Char) (l : List Char) :
    splitOnChar c l ≠ [] := by
  induction l with
  | nil => simp [splitOnChar]
  | cons x xs ih =>
      unfold splitOnChar
      rcases h : splitOnChar c xs with _ | ⟨hd, tl⟩
      · simp
      · by_cases hx : x = c <;> simp [hx]

theorem splitOnChar_of_not_mem (c : Char) (l : List Char) (h : c ∉ l) :
    splitOnChar c l = [l] := by
  induction l with
  | nil => rfl
  | cons x xs ih =>
      have hx : x ≠ c := fun hxc => h (hxc ▸ List.mem_cons_self x xs)
      have hxs : c ∉ xs := fun hm => h (List.mem_cons_of_mem x hm)
      unfold splitOnChar
      rw [ih hxs]
      simp [hx]

theorem splitOnChar_cons (c x : Char) (xs : List Char) :
    splitOnChar c (x :: xs) =
      match splitOnChar c xs with
      | [] => [[x]]
      | h :: t => if x = c then [] :: h :: t else (x :: h) :: t := rfl

theorem splitOnChar_append (c : Char) (a rest : List Char) (ha : c ∉ a) :
    splitOnChar c (a ++ c :: rest) = a :: splitOnChar c rest := by
  induction a with
  | nil =>
      simp only [List.nil_append]
      rw [splitOnChar_cons]
      rcases h : splitOnChar c rest with _ | ⟨hd, tl⟩
      · exact absurd h (splitOnChar_ne_nil c rest)
      · simp
  | cons x a' ih =>
      have hx : x ≠ c := fun hxc => ha (hxc ▸ List.mem_cons_self x a')
      have ha' : c ∉ a' := fun hm => ha (List.mem_cons_of_mem x hm)
      simp only [List.cons_append]
      rw [splitOnChar_cons, ih ha']
      simp [hx]

theorem splitOnChar_joinSep (c : Char) (ls : List (List Char))
    (hne : ls ≠ []) (h : ∀ l ∈ ls, c ∉ l) :
    splitOnChar c (joinSep c ls) = ls := by
  induction ls with
  | nil => exact absurd rfl hne
  | cons l ls ih =>
      rcases ls with _ | ⟨l2, ls'⟩
      · unfold joinSep
        exact splitOnChar_of_not_mem c l (h l (List.mem_cons_self l []))
      · rw [show joinSep c (l :: l2 :: ls') = l ++ c :: joinSep c (l2 :: ls')
          from rfl]
        rw [splitOnChar_append c l _ (h l (List.mem_cons_self l _))]
        rw [ih (by simp) (fun x hx => h x (List.mem_cons_of_mem l hx))]

/- ### Character classification of the rendered numerals -/

theorem unsignedChars_mem (m : Nat) :
    ∀ c ∈ unsignedChars m, c.isDigit = true ∨ c = '.' := by
  intro c hc
  unfold unsignedChars at hc
  rw [List.mem_append] at hc
  rcases hc with hc | hc
  · exact Or.inl (natToChars_isDigit _ c hc)
  · rw [List.mem_cons] at hc
    rcases hc with rfl | hc
    · exact Or.inr rfl
    · exact Or.inl (pad6_isDigit _ (natToChars_isDigit _) c hc)

theorem fixed6Chars_mem (q : ℚ) :
    ∀ c ∈ fixed6Chars q, c.isDigit = true ∨ c = '.' ∨ c = '-' := by
  intro c hc
  unfold fixed6Chars at hc
  rw [List.mem_append] at hc
  rcases hc with hc | hc
  · by_cases hneg : round (q * 1000000) < 0
    · rw [if_pos hneg, List.mem_singleton] at hc
      exact Or.inr (Or.inr hc)
    · rw [if_neg hneg] at hc
      exact absurd hc (List.not_mem_nil c)
  · rcases unsignedChars_mem _ c hc with h | h
    · exact Or.inl h
    · exact Or.inr (Or.inl h)

theorem comma_not_mem_fixed6Chars (q : ℚ) : ',' ∉ fixed6Chars q := by
  intro hmem
  rcases fixed6Chars_mem q ',' hmem with h | h | h
  · exact absurd h (by decide)
  · exact absurd h (by decide)
  · exact absurd h (by decide)

theorem semi_not_mem_fixed6Chars (q : ℚ) : ';' ∉ fixed6Chars q := by
  intro hmem
  rcases fixed6Chars_mem q ';' hmem with h | h | h
  · exact absurd h (by decide)
  · exact absurd h (by decide)
  · exact absurd h (by decide)

theorem semi_not_mem_pointChars (p : ℚ × ℚ) : ';' ∉ pointChars p := by
  intro hmem
  unfold pointChars at hmem
  rw [List.mem_append] at hmem
  rcases hmem with h | h
  · exact semi_not_mem_fixed6Chars _ h
  · rw [List.mem_cons] at h
    rcases h with h | h
    · exact absurd h (by decide)
    · exact semi_not_mem_fixed6Chars _ h

theorem pointChars_ne_nil (p : ℚ × ℚ) : pointChars p ≠ [] := by
  unfold pointChars
  simp

theorem joinSep_ne_nil (c : Char) (l : List Char) (ls : List (List Char))
    (hl : l ≠ []) : joinSep c (l :: ls) ≠ [] := by
  rcases ls with _ | ⟨l2, ls'⟩
  · exact hl
  · rw [show joinSep c (l :: l2 :: ls') = l ++ c :: joinSep c (l2 :: ls')
      from rfl]
    simp

/- ### Parsing inverts rendering -/

theorem parseDecimal_unsignedChars (m : Nat) :
    parseDecimal (unsignedChars m) = some ((m : ℚ) / 1000000) := by
  have hint_digits : ∀ c ∈ natToChars (m / 1000000), c.isDigit = true :=
    natToChars_isDigit _
  have hfrac_digits : ∀ c ∈ pad6 (natToChars (m % 1000000)), c.isDigit = true :=
    pad6_isDigit _ (natToChars_isDigit _)
  have hdotInt : '.' ∉ natToChars (m / 1000000) :=
    fun hmem => absurd rfl (isDigit_ne (hint_digits '.' hmem)).1
  have hdotFrac : '.' ∉ pad6 (natToChars (m % 1000000)) :=
    fun hmem => absurd rfl (isDigit_ne (hfrac_digits '.' hmem)).1
  have hlen : (pad6 (natToChars (m % 1000000))).length = 6 :=
    pad6_length _ (natToChars_length_le _ (Nat.mod_lt _ (by norm_num)))
  have hfrac_ne : pad6 (natToChars (m % 1000000)) ≠ [] := by
    intro hnil
    rw [hnil] at hlen
    simp at hlen
  unfold parseDecimal unsignedChars
  rw [splitOnChar_append '.' _ _ hdotInt,
    splitOnChar_of_not_mem '.' _ hdotFrac]
  have hcond : ((natToChars (m / 1000000)).all Char.isDigit &&
      (pad6 (natToChars (m % 1000000))).all Char.isDigit &&
      !(natToChars (m / 1000000)).isEmpty &&
      !(pad6 (natToChars (m % 1000000))).isEmpty) = true := by
    simp only [Bool.and_eq_true, Bool.not_eq_true', List.all_eq_true]
    refine ⟨⟨⟨hint_digits, hfrac_digits⟩, ?_⟩, ?_⟩
    · rw [List.isEmpty_eq_false_iff_exists_mem]
      rcases List.exists_mem_of_ne_nil _ (natToChars_ne_nil (m / 1000000))
        with ⟨c, hc⟩
      exact ⟨c, hc⟩
    · rw [List.isEmpty_eq_false_iff_exists_mem]
      rcases List.exists_mem_of_ne_nil _ hfrac_ne with ⟨c, hc⟩
      exact ⟨c, hc⟩
  rw [show (match [natToChars (m / 1000000),
        pad6 (natToChars (m % 1000000))] with
      | [a, b] =>
          if a.all Char.isDigit && b.all Char.isDigit &&
              !a.isEmpty && !b.isEmpty then
            some ((charsToNat a : ℚ) + (charsToNat b : ℚ) / 10 ^ b.length)
          else none
      | _ => none) =
      if (natToChars (m / 1000000)).all Char.isDigit &&
          (pad6 (natToChars (m % 1000000))).all Char.isDigit &&
          !(natToChars (m / 1000000)).isEmpty &&
          !(pad6 (natToChars (m % 1000000))).isEmpty then
        some ((charsToNat (natToChars (m / 1000000)) : ℚ) +
          (charsToNat (pad6 (natToChars (m % 1000000))) : ℚ) /
            10 ^ (pad6 (natToChars (m % 1000000))).length)
      else none from rfl]
  rw [if_pos hcond, charsToNat_natToChars, charsToNat_pad6,
    charsToNat_natToChars, hlen]
  congr 1
  have key : ((m / 1000000 : Nat) : ℚ) * 1000000 +
      ((m % 1000000 : Nat) : ℚ) = (m : ℚ) := by
    have h : ((1000000 * (m / 1000000) + m % 1000000 : ℕ) : ℚ) = (m : ℚ) := by
      rw [Nat.div_add_mod m 1000000]
    push_cast at h
    linarith
  have h10 : ((10 : ℚ) ^ (6 : ℕ)) = 1000000 := by norm_num
  rw [h10]
  field_simp
  linarith [key]

theorem parseSigned_cons (x : Char) (rest : List Char) :
    parseSigned (x :: rest) =
      if x = '-' then (parseDecimal rest).map (fun q => -q)
      else parseDecimal (x :: rest) := rfl

theorem parseSigned_fixed6Chars (q : ℚ) (hq : round6 q = q) :
    parseSigned (fixed6Chars q) = some q := by
  have hval : ((round (q * 1000000) : ℤ) : ℚ) / 1000000 = q := by
    unfold round6 at hq
    exact_mod_cast hq
  by_cases hneg : round (q * 1000000) < 0
  · have hfc : fixed6Chars q =
        '-' :: unsignedChars (round (q * 1000000)).natAbs := by
      unfold fixed6Chars
      rw [if_pos hneg]
      rfl
    rw [hfc, parseSigned_cons, if_pos rfl, parseDecimal_unsignedChars]
    rw [show Option.map (fun q : ℚ => -q)
        (some (((round (q * 1000000)).natAbs : ℚ) / 1000000)) =
        some (-(((round (q * 1000000)).natAbs : ℚ) / 1000000)) from rfl]
    congr 1
    have habs : (((round (q * 1000000)).natAbs : ℚ)) =
        -((round (q * 1000000) : ℤ) : ℚ) := by
      rw [Int.cast_natAbs, abs_of_neg hneg, Int.cast_neg]
    rw [habs, neg_div, neg_neg]
    exact hval
  · have hfc : fixed6Chars q =
        unsignedChars (round (q * 1000000)).natAbs := by
      unfold fixed6Chars
      rw [if_neg hneg]
      rfl
    rcases hcons : natToChars ((round (q * 1000000)).natAbs / 1000000)
      with _ | ⟨c, cs⟩
    · exact absurd hcons (natToChars_ne_nil _)
    · have hcd : c.isDigit = true := by
        apply natToChars_isDigit ((round (q * 1000000)).natAbs / 1000000)
        rw [hcons]
        exact List.mem_cons_self c cs
      have hcne : c ≠ '-' := (isDigit_ne hcd).2.2.2
      have hush : unsignedChars (round (q * 1000000)).natAbs =
          c :: (cs ++ '.' ::
            pad6 (natToChars ((round (q * 1000000)).natAbs % 1000000))) := by
        unfold unsignedChars
        rw [hcons]
        rfl
      rw [hfc, hush, parseSigned_cons, if_neg hcne, ← hush,
        parseDecimal_unsignedChars]
      congr 1
      have habs : (((round (q * 1000000)).natAbs : ℚ)) =
          ((round (q * 1000000) : ℤ) : ℚ) := by
        rw [Int.cast_natAbs, abs_of_nonneg (le_of_not_lt hneg)]
      rw [habs, hval]

theorem parsePoint_pointChars (p : ℚ × ℚ) (h1 : round6 p.1 = p.1)
    (h2 : round6 p.2 = p.2) : parsePoint (pointChars p) = some p := by
  unfold parsePoint pointChars
  rw [splitOnChar_append ',' _ _ (comma_not_mem_fixed6Chars p.2),
    splitOnChar_of_not_mem ',' _ (comma_not_mem_fixed6Chars p.1)]
  show (match parseSigned (fixed6Chars p.2), parseSigned (fixed6Chars p.1) with
    | some lon, some lat => some (lat, lon)
    | _, _ => none) = some p
  rw [parseSigned_fixed6Chars p.2 h2, parseSigned_fixed6Chars p.1 h1]

theorem mapM_parsePoint (pts : List (ℚ × ℚ))
    (h : ∀ p ∈ pts, round6 p.1 = p.1 ∧ round6 p.2 = p.2) :
    (pts.map pointChars).mapM parsePoint = some pts := by
  induction pts with
  | nil => rfl
  | cons p pts ih =>
      rw [List.map_cons, List.mapM_cons,
        parsePoint_pointChars p (h p (List.mem_cons_self p pts)).1
          (h p (List.mem_cons_self p pts)).2,
        ih (fun x hx => h x (List.mem_cons_of_mem p hx))]
      rfl

theorem fixed6Chars_sixFracDigits (q : ℚ) : sixFracDigits (fixed6Chars q) := by
  refine ⟨(if round (q * 1000000) < 0 then ['-'] else []) ++
      natToChars ((round (q * 1000000)).natAbs / 1000000),
    pad6 (natToChars ((round (q * 1000000)).natAbs % 1000000)),
    ?_, ?_, ?_, ?_, ?_⟩
  · unfold fixed6Chars unsignedChars
    rw [List.append_assoc]
  · exact pad6_length _ (natToChars_length_le _ (Nat.mod_lt _ (by norm_num)))
  · exact pad6_isDigit _ (natToChars_isDigit _)
  · intro hmem
    rw [List.mem_append] at hmem
    rcases hmem with hmem | hmem
    · by_cases hneg : round (q * 1000000) < 0
      · rw [if_pos hneg, List.mem_singleton] at hmem
        exact absurd hmem (by decide)
      · rw [if_neg hneg] at hmem
        exact absurd hmem (List.not_mem_nil _)
    · exact absurd rfl (isDigit_ne (natToChars_isDigit _ '.' hmem)).1
  · intro hmem
    exact absurd rfl
      (isDigit_ne (pad6_isDigit _ (natToChars_isDigit _) '.' hmem)).1

/- ### Claim theorems for formatting and parsing -/

/-- C4: formatting a list of sample points whose coordinates are already
rounded to 6 decimal places into the `"lon,lat;lon,lat"` API string and
parsing that string back into `(latitude, longitude)` pairs yields the
original list exactly. -/
theorem format_parse_round_trip (points : List (ℚ × ℚ))
    (h : ∀ p ∈ points, round6 p.1 = p.1 ∧ round6 p.2 = p.2) :
    parse_api_string (format_points_for_api points) = some points := by
  unfold parse_api_string format_points_for_api
  rcases points with _ | ⟨p, pts⟩
  · rfl
  · have hne : joinSep ';' ((p :: pts).map pointChars) ≠ [] := by
      rw [List.map_cons]
      exact joinSep_ne_nil ';' _ _ (pointChars_ne_nil p)
    rw [if_neg
      (show ¬ (String.mk (joinSep ';' ((p :: pts).map pointChars))).data = []
        from hne)]
    rw [show (String.mk (joinSep ';' ((p :: pts).map pointChars))).data =
      joinSep ';' ((p :: pts).map pointChars) from rfl]
    rw [splitOnChar_joinSep ';' _ (by simp)
      (fun l hl => by
        rcases List.mem_map.mp hl with ⟨x, _, rfl⟩
        exact semi_not_mem_pointChars x)]
    exact mapM_parsePoint _ h

/-- C4, witness: the singleton list `[(1/2, -1/4)]` (both coordinates exact
multiples of `10⁻⁶`) survives the format/parse round trip. -/
theorem format_parse_round_trip_witness :
    parse_api_string (format_points_for_api [((1 : ℚ) / 2, -(1 : ℚ) / 4)]) =
      some [((1 : ℚ) / 2, -(1 : ℚ) / 4)] :=
  format_parse_round_trip _ (by with_unfolding_all decide)

/-- C5: splitting the API string produced by `format_points_for_api` on `";"`
recovers, in the original input order, one fragment per point — the
rendering of the longitude, a comma, then the latitude — and every rendered
coordinate consists of an integer part, one dot, and exactly six decimal
digits. -/
theorem format_renders_lon_lat_six_digits (points : List (ℚ × ℚ))
    (h : points ≠ []) :
    splitOnChar ';' (format_points_for_api points).data =
      points.map pointChars ∧
    (∀ p : ℚ × ℚ, pointChars p = fixed6Chars p.2 ++ ',' :: fixed6Chars p.1) ∧
    ∀ q : ℚ, sixFracDigits (fixed6Chars q) := by
  refine ⟨?_, fun _ => rfl, fixed6Chars_sixFracDigits⟩
  unfold format_points_for_api
  rw [show (String.mk (joinSep ';' (points.map pointChars))).data =
    joinSep ';' (points.map pointChars) from rfl]
  exact splitOnChar_joinSep ';' _ (by simpa using h)
    (fun l hl => by
      rcases List.mem_map.mp hl with ⟨x, _, rfl⟩
      exact semi_not_mem_pointChars x)

/-- C5, witness: the property at the singleton list `[(1, 2)]`. -/
theorem format_renders_lon_lat_six_digits_witness :
    splitOnChar ';' (format_points_for_api [((1 : ℚ), (2 : ℚ))]).data =
      [((1 : ℚ), (2 : ℚ))].map pointChars ∧
    (∀ p : ℚ × ℚ, pointChars p = fixed6Chars p.2 ++ ',' :: fixed6Chars p.1) ∧
    (∀ q : ℚ, sixFracDigits (fixed6Chars q)) :=
  format_renders_lon_lat_six_digits [((1 : ℚ), (2 : ℚ))] (by simp)

/- ### The driving-API request

`make_driving_api_request` and `generate_curl_command`.  The HTTP exchange
performed by `requests.post` is abstracted as a function from the POST body
to an `HttpResult`, and the measured wall-clock duration as a parameter. -/

/-- A value stored in a response dictionary. -/
inductive Val where
  | str : String → Val
  | num : ℚ → Val
  deriving DecidableEq

/-- A Python dict with string keys: an insertion-ordered association list. -/
abbrev Dict := List (String × Val)

/-- Python `d[k] = v`: replace the value in place when the key exists,
append otherwise. -/
def setKey : Dict → String → Val → Dict
  | [], k, v => [(k, v)]
  | (k', v') :: rest, k, v =>
      if k' = k then (k', v) :: rest else (k', v') :: setKey rest k v

/-- Key lookup in a dict. -/
def getKey : Dict → String → Option Val
  | [], _ => none
  | (k', v) :: rest, k => if k' = k then some v else getKey rest k

/-- The outcome of `requests.post`: a response carrying the status code, the
parsed JSON body when `response.json()` succeeds (`none` models a
`json.JSONDecodeError`) and the raw text, or a raised
`requests.exceptions.RequestException` with its message. -/
inductive HttpResult where
  | response (status : Nat) (jsonBody : Option Dict) (text : String)
  | exception (msg : String)

/-- Python truthiness of the `max_points` argument: `None` and `0` are
falsy. -/
def pyTruthy : Option Nat → Bool
  | none => false
  | some m => decide (m ≠ 0)

/-- `if max_points: points = points[:max_points]`, shared by
`generate_curl_command` and `make_driving_api_request`. -/
def truncatePoints (points : List (ℚ × ℚ)) (max_points : Option Nat) :
    List (ℚ × ℚ) :=
  if pyTruthy max_points then points.take (max_points.getD 0) else points

/-- `generate_curl_command`: the complete curl command string for the
(optionally truncated) point list. -/
def generate_curl_command (points : List (ℚ × ℚ))
    (max_points : Option Nat) : String :=
  let pts := truncatePoints points max_points
  "curl -X POST \"http://127.0.0.1:5002/table/v1/driving/\" \\\n" ++
    "-H \"Content-Type: application/x-www-form-urlencoded\" \\\n" ++
    "-d \"" ++ format_points_for_api pts ++ "\""

/-- `make_driving_api_request`: truncate, format, POST the body, then build
the returned dictionary: on status 200 the parsed JSON body augmented with
`request_duration_seconds` (or a `raw_response` fallback when the body is
not JSON), on any other status an error descriptor with the duration, and on
a raised `RequestException` an error descriptor with a suggestion and no
duration. -/
def make_driving_api_request (points : List (ℚ × ℚ))
    (max_points : Option Nat) (http : String → HttpResult)
    (duration : ℚ) : Dict :=
  let pts := truncatePoints points max_points
  let api_format := format_points_for_api pts
  match http api_format with
  | HttpResult.response status jsonBody text =>
      if status = 200 then
        match jsonBody with
        | some data =>
            setKey data "request_duration_seconds" (Val.num duration)
        | none =>
            [("raw_response", Val.str text),
             ("request_duration_seconds", Val.num duration)]
      else
        [("error", Val.str ("API request failed with status " ++
            String.mk (natToChars status))),
         ("response_text", Val.str text),
         ("request_duration_seconds", Val.num duration)]
  | HttpResult.exception msg =>
      [("error", Val.str ("Request failed: " ++ msg)),
       ("suggestion", Val.str
         "Make sure the API server is running on http://127.0.0.1:5002")]

/-- A server answering 201 Created to every request. -/
def created201Http : String → HttpResult :=
  fun _ => HttpResult.response 201 none "Created"

/-- A server answering 200 with a small JSON body. -/
def ok200Http : String → HttpResult :=
  fun _ => HttpResult.response 200 (some [("code", Val.str "Ok")]) "body"

/-- A connection that raises a `RequestException`. -/
def failHttp : String → HttpResult :=
  fun _ => HttpResult.exception "boom"

theorem getKey_setKey (d : Dict) (k : String) (v : Val) :
    getKey (setKey d k v) k = some v := by
  induction d with
  | nil => simp [setKey, getKey]
  | cons kv rest ih =>
      rcases kv with ⟨k', v'⟩
      unfold setKey
      by_cases hk : k' = k
      · rw [if_pos hk]
        unfold getKey
        rw [if_pos hk]
      · rw [if_neg hk]
        unfold getKey
        rw [if_neg hk]
        exact ih

theorem getKey_setKey_ne (d : Dict) (k k' : String) (v : Val)
    (h : k' ≠ k) : getKey (setKey d k v) k' = getKey d k' := by
  induction d with
  | nil =>
      unfold setKey getKey
      rw [if_neg (fun hkk : k = k' => h hkk.symm)]
      rfl
  | cons kv rest ih =>
      rcases kv with ⟨k0, v0⟩
      unfold setKey
      by_cases hk : k0 = k
      · rw [if_pos hk]
        unfold getKey
        by_cases hk0 : k0 = k'
        · exact absurd (hk0.symm.trans hk) h
        · rw [if_neg hk0, if_neg hk0]
      · rw [if_neg hk]
        unfold getKey
        by_cases hk0 : k0 = k'
        · rw [if_pos hk0, if_pos hk0]
        · rw [if_neg hk0, if_neg hk0]
          exact ih

/- ### Claim theorems for the API request -/

/-- C2, counterexample: a 201 Created response is a 2xx status, yet
`make_driving_api_request` takes the `status_code == 200` else-branch and
returns an error descriptor, so the error descriptor is not produced
"exactly when the status is non-2xx". -/
theorem status_201_yields_error_descriptor :
    ((200 : Nat) ≤ 201 ∧ (201 : Nat) < 300) ∧
    (getKey (make_driving_api_request [] none created201Http 0)
      "error").isSome = true := by
  constructor
  · exact ⟨by norm_num, by norm_num⟩
  · rfl

/-- C2 (amended): `make_driving_api_request` always returns a dictionary, and
— provided a 200-response JSON body does not itself carry an "error" key —
that dictionary contains an "error" key exactly when the HTTP status differs
from 200 or the request raised a network exception (not: when the status is
non-2xx). -/
theorem error_descriptor_iff_status_ne_200 (points : List (ℚ × ℚ))
    (mp : Option Nat) (http : String → HttpResult) (d : ℚ) :
    (∀ status jsonBody text,
      http (format_points_for_api (truncatePoints points mp)) =
        HttpResult.response status jsonBody text →
      (∀ data, jsonBody = some data → getKey data "error" = none) →
      ((getKey (make_driving_api_request points mp http d) "error").isSome
        = true ↔ status ≠ 200)) ∧
    ∀ msg,
      http (format_points_for_api (truncatePoints points mp)) =
        HttpResult.exception msg →
      (getKey (make_driving_api_request points mp http d) "error").isSome
        = true := by
  constructor
  · intro status jsonBody text hresp hbody
    unfold make_driving_api_request
    dsimp only
    rw [hresp]
    dsimp only
    by_cases hs : status = 200
    · rw [if_pos hs]
      rcases jsonBody with _ | data
      · rw [show (getKey [("raw_response", Val.str text),
            ("request_duration_seconds", Val.num d)] "error").isSome = false
          from rfl]
        simp [hs]
      · rw [getKey_setKey_ne data _ _ _ (by decide), hbody data rfl]
        simp [hs]
    · rw [if_neg hs]
      rw [show (getKey [("error", Val.str ("API request failed with status "
            ++ String.mk (natToChars status))),
          ("response_text", Val.str text),
          ("request_duration_seconds", Val.num d)] "error").isSome = true
        from rfl]
      simp [hs]
  · intro msg hexc
    unfold make_driving_api_request
    dsimp only
    rw [hexc]
    dsimp only
    rfl

/-- C2 (amended), witness: a 200 response with a clean JSON body yields no
error key, and a raised exception yields one. -/
theorem error_descriptor_iff_status_ne_200_witness :
    ((getKey (make_driving_api_request [] none ok200Http 0) "error").isSome
      = true ↔ (200 : Nat) ≠ 200) ∧
    (getKey (make_driving_api_request [] none failHttp 0) "error").isSome
      = true :=
  ⟨(error_descriptor_iff_status_ne_200 [] none ok200Http 0).1 200
      (some [("code", Val.str "Ok")]) "body" rfl
      (fun data hd => by cases hd; rfl),
   (error_descriptor_iff_status_ne_200 [] none failHttp 0).2 "boom" rfl⟩

/-- C9: a `max_points` of 0 is falsy in Python, so the truncation guard does
not fire: all points are kept, and `generate_curl_command` and
`make_driving_api_request` behave exactly as with `max_points = None`; any
positive `max_points` truncates the list to that many points. -/
theorem max_points_zero_means_no_truncation (points : List (ℚ × ℚ))
    (h : points ≠ []) :
    truncatePoints points (some 0) = points ∧
    generate_curl_command points (some 0) =
      generate_curl_command points none ∧
    (∀ http d, make_driving_api_request points (some 0) http d =
      make_driving_api_request points none http d) ∧
    ∀ m : Nat, 0 < m → truncatePoints points (some m) = points.take m := by
  have h0 : truncatePoints points (some 0) = points := rfl
  have hnone : truncatePoints points none = points := rfl
  refine ⟨h0, ?_, ?_, ?_⟩
  · unfold generate_curl_command
    dsimp only
    rw [h0, hnone]
  · intro http d
    unfold make_driving_api_request
    dsimp only
    rw [h0, hnone]
  · intro m hm
    unfold truncatePoints pyTruthy
    rw [if_pos (decide_eq_true (Nat.pos_iff_ne_zero.mp hm))]
    rfl

/-- C9, witness: on a concrete two-point list, `max_points = 0` keeps both
points while `max_points = 1` truncates to one. -/
theorem max_points_zero_means_no_truncation_witness :
    truncatePoints [((1 : ℚ), (2 : ℚ)), ((3 : ℚ), (4 : ℚ))] (some 0) =
      [((1 : ℚ), (2 : ℚ)), ((3 : ℚ), (4 : ℚ))] ∧
    truncatePoints [((1 : ℚ), (2 : ℚ)), ((3 : ℚ), (4 : ℚ))] (some 1) =
      [((1 : ℚ), (2 : ℚ)), ((3 : ℚ), (4 : ℚ))].take 1 :=
  ⟨(max_points_zero_means_no_truncation _ (by simp)).1,
   (max_points_zero_means_no_truncation
      [((1 : ℚ), (2 : ℚ)), ((3 : ℚ), (4 : ℚ))] (by simp)).2.2.2 1
     (by decide)⟩

/-- C10: when the request raises a network exception the returned descriptor
has "error" and "suggestion" keys but no "request_duration_seconds" key,
while every non-exception outcome — 200 with JSON body, 200 with non-JSON
body, or a non-200 status — includes "request_duration_seconds". -/
theorem duration_key_presence (points : List (ℚ × ℚ)) (mp : Option Nat)
    (http : String → HttpResult) (d : ℚ) :
    (∀ msg, http (format_points_for_api (truncatePoints points mp)) =
        HttpResult.exception msg →
      (getKey (make_driving_api_request points mp http d) "error").isSome
          = true ∧
      (getKey (make_driving_api_request points mp http d)
          "suggestion").isSome = true ∧
      getKey (make_driving_api_request points mp http d)
        "request_duration_seconds" = none) ∧
    ∀ status jsonBody text,
      http (format_points_for_api (truncatePoints points mp)) =
        HttpResult.response status jsonBody text →
      (getKey (make_driving_api_request points mp http d)
        "request_duration_seconds").isSome = true := by
  constructor
  · intro msg hexc
    unfold make_driving_api_request
    dsimp only
    rw [hexc]
    dsimp only
    exact ⟨rfl, rfl, rfl⟩
  · intro status jsonBody text hresp
    unfold make_driving_api_request
    dsimp only
    rw [hresp]
    dsimp only
    by_cases hs : status = 200
    · rw [if_pos hs]
      rcases jsonBody with _ | data
      · rfl
      · rw [getKey_setKey]
        rfl
    · rw [if_neg hs]
      rfl

/-- C10, witness: duration key absent after an exception, present on a 200
response. -/
theorem duration_key_presence_witness :
    getKey (make_driving_api_request [] none failHttp 0)
      "request_duration_seconds" = none ∧
    (getKey (make_driving_api_request [] none ok200Http 0)
      "request_duration_seconds").isSome = true :=
  ⟨((duration_key_presence [] none failHttp 0).1 "boom" rfl).2.2,
   (duration_key_presence [] none ok200Http 0).2 200
     (some [("code", Val.str "Ok")]) "body" rfl⟩

end Monaco
